import Mathlib

/-!
# Verification of the Ordering & Scheduling Engine of the curriculum tracker

Shallow embedding of the schedule projector / recalculator
(`utils.calculate_schedule`, `utils.recalculate_schedule_from`) and of the
reorder engine (`services.structure.reorder_structure`,
`routes.api.reorder_resource`) of the repository, together with proofs and
refutations of the spec's claims about them.

Calendar dates ("YYYY-MM-DD" strings in the code, compared as strings, which
for this fixed-width format coincides with calendar order) are modelled as
natural numbers: day `n` is the n-th day of an epoch, e.g. `1 = 2024-01-01`,
`2 = 2024-01-02`, and so on.  The relational store is modelled as a list of
rows; an SQL `UPDATE ... WHERE c` is a `List.map` applying the update to the
rows satisfying `c`, and transactional rollback is modelled by returning an
`Except.error` that carries no state (the caller keeps the prior list).
-/

/-- A row of the `resources` table, restricted to the columns the scheduling
and leaf-reordering code reads or writes: `phase_index`, `week`, `day`
(the curriculum coordinates, assumed non-NULL as in every scheduled row),
`scheduled_date`, `original_date` and `sort_order`. -/
structure Resource where
  rid : Nat
  phase_index : Nat
  week : Nat
  day : Nat
  scheduled_date : Option Nat
  original_date : Option Nat
  sort_order : Int
  deriving DecidableEq, Repr

/-- The curriculum-day key `(phase_index, week, day)` of a resource: the
grouping used by `SELECT DISTINCT phase_index, week, day ... ORDER BY
phase_index, week, day`. -/
def keyOf (r : Resource) : Nat × Nat × Nat :=
  (r.phase_index, r.week, r.day)

/-- Strict lexicographic order on curriculum-day keys, the `ORDER BY
phase_index, week, day` order. -/
def keyLt (a b : Nat × Nat × Nat) : Prop :=
  a.1 < b.1 ∨ (a.1 = b.1 ∧ (a.2.1 < b.2.1 ∨ (a.2.1 = b.2.1 ∧ a.2.2 < b.2.2)))

instance (a b : Nat × Nat × Nat) : Decidable (keyLt a b) := by
  unfold keyLt; infer_instance

/-- Insert a key into a lexicographically sorted duplicate-free list,
keeping it sorted and duplicate-free. -/
def insertKey (k : Nat × Nat × Nat) : List (Nat × Nat × Nat) → List (Nat × Nat × Nat)
  | [] => [k]
  | x :: xs =>
    if k = x then x :: xs
    else if keyLt k x then k :: x :: xs
    else x :: insertKey k xs

/-- `SELECT DISTINCT phase_index, week, day FROM resources ORDER BY
phase_index, week, day`: the sorted list of distinct curriculum-day keys. -/
def sortedKeys (rs : List Resource) : List (Nat × Nat × Nat) :=
  rs.foldr (fun r acc => insertKey (keyOf r) acc) []

/-- One step of the `while current_date in blocked: current_date += 1` loop,
with explicit fuel; each iteration removes the hit date from the remaining
blocked list, so `blocked.length` much fuel always suffices. -/
def nextFreeGo : Nat → List Nat → Nat → Nat
  | 0, _, c => c
  | fuel + 1, b, c =>
    if c ∈ b then nextFreeGo fuel (b.filter (fun x => x != c)) (c + 1) else c

/-- The first date `≥ c` that is not in the blocked list: the
`while current_date in blocked` skip loop of the schedule walk. -/
def nextFree (b : List Nat) (c : Nat) : Nat :=
  nextFreeGo b.length b c

/-- The cursor walk shared by `calculate_schedule` and
`recalculate_schedule_from`: assign to each curriculum day in order the next
non-blocked date, then advance the cursor one more day. -/
def walk (blocked : List Nat) : Nat → List (Nat × Nat × Nat) → List ((Nat × Nat × Nat) × Nat)
  | _, [] => []
  | c, k :: ks =>
    let dd := nextFree blocked c
    (k, dd) :: walk blocked (dd + 1) ks

/-- Look up the date assigned to a key by the walk (the `WHERE phase_index =
%s AND week = %s AND day = %s` match of the per-day `UPDATE`). -/
def findDate (k : Nat × Nat × Nat) : List ((Nat × Nat × Nat) × Nat) → Option Nat
  | [] => none
  | (k', dd) :: rest => if k = k' then some dd else findDate k rest

/-- Apply the per-day `UPDATE` of the schedule walk to one resource row:
set `scheduled_date`, and when `setOrig` (the `calculate_schedule` case)
also `original_date = COALESCE(original_date, date)`. -/
def assignResource (asn : List ((Nat × Nat × Nat) × Nat)) (setOrig : Bool) (r : Resource) : Resource :=
  match findDate (keyOf r) asn with
  | none => r
  | some dd =>
    if setOrig then
      { r with scheduled_date := some dd, original_date := some (r.original_date.getD dd) }
    else
      { r with scheduled_date := some dd }

/-- Apply the walk's assignments to every resource row. -/
def applyAssign (asn : List ((Nat × Nat × Nat) × Nat)) (setOrig : Bool) (rs : List Resource) : List Resource :=
  rs.map (assignResource asn setOrig)

/-- `utils.calculate_schedule(start_date)`: enumerate the distinct curriculum
days in order; if there are none, return unchanged; otherwise walk the cursor
from `start_date` skipping every blocked date, writing `scheduled_date` and
`original_date = COALESCE(original_date, date)` for each day group. -/
def calculate_schedule (start_date : Nat) (blocked : List Nat) (rs : List Resource) : List Resource :=
  if (sortedKeys rs).isEmpty then rs
  else applyAssign (walk blocked start_date (sortedKeys rs)) true rs

/-- The rows with `scheduled_date >= from_date`
(`SELECT ... FROM resources WHERE scheduled_date >= %s`; NULL never
compares true). -/
def affectedRes (from_date : Nat) (rs : List Resource) : List Resource :=
  rs.filter (fun r =>
    match r.scheduled_date with
    | some s => decide (from_date ≤ s)
    | none => false)

/-- Leftmost-seeded minimum of a list, `MIN(column)` over a non-empty
result set. -/
def listMin : List Nat → Nat
  | [] => 0
  | x :: xs => xs.foldl Nat.min x

/-- The `(MIN(phase_index), MIN(week), MIN(day))` triple the recalculation
takes over the rows with `scheduled_date >= from_date`.  Note the three
minima are taken independently, column by column. -/
def recalcMins (from_date : Nat) (rs : List Resource) : Nat × Nat × Nat :=
  (listMin ((affectedRes from_date rs).map (·.phase_index)),
   listMin ((affectedRes from_date rs).map (·.week)),
   listMin ((affectedRes from_date rs).map (·.day)))

/-- The `WHERE (phase_index > %s) OR (phase_index = %s AND week > %s) OR
(phase_index = %s AND week = %s AND day >= %s)` region condition of the
recalculation, with the three independent minima as parameters. -/
def regionCond (m k : Nat × Nat × Nat) : Prop :=
  m.1 < k.1 ∨ (m.1 = k.1 ∧ m.2.1 < k.2.1) ∨ (m.1 = k.1 ∧ m.2.1 = k.2.1 ∧ m.2.2 ≤ k.2.2)

instance (m k : Nat × Nat × Nat) : Decidable (regionCond m k) := by
  unfold regionCond; infer_instance

/-- The distinct curriculum days the recalculation re-walks: those in the
region determined by the componentwise minima, in order. -/
def recalcKeys (from_date : Nat) (rs : List Resource) : List (Nat × Nat × Nat) :=
  (sortedKeys rs).filter (fun k => decide (regionCond (recalcMins from_date rs) k))

/-- The `(day, date)` assignments `recalculate_schedule_from` writes: the walk
from `from_date` over the re-walked day groups, consulting only the blocked
dates `>= from_date`; empty when there is no row with
`scheduled_date >= from_date`. -/
def recalcAssignments (from_date : Nat) (blocked : List Nat) (rs : List Resource) :
    List ((Nat × Nat × Nat) × Nat) :=
  if (affectedRes from_date rs).isEmpty then []
  else walk (blocked.filter (fun x => decide (from_date ≤ x))) from_date (recalcKeys from_date rs)

/-- `utils.recalculate_schedule_from(from_date)`: find the componentwise
minima of the curriculum coordinates over rows with `scheduled_date >=
from_date` (early return when none), select the day groups in the region
from that point forward (early return when none), and re-walk them from
`from_date` using the blocked dates `>= from_date`, overwriting
`scheduled_date` only. -/
def recalculate_schedule_from (from_date : Nat) (blocked : List Nat) (rs : List Resource) : List Resource :=
  if (affectedRes from_date rs).isEmpty then rs
  else if (recalcKeys from_date rs).isEmpty then rs
  else applyAssign (recalcAssignments from_date blocked rs) false rs

/-! ## The reorder engine (`services.structure.reorder_structure`)

A row of the `weeks` or `days` table carries `(id, user_id, parent-column,
order_index)`; the parent table (`phases` resp. `weeks`) is consulted only
for the existence/ownership check, so it is modelled by `(id, user_id)`
pairs.  Every SQL `UPDATE` of the function is a pointwise transformation of
the rows and is modelled as a `List.map` of the corresponding step below. -/

/-- A row of the reordered table (`weeks` or `days`): id, owner,
parent-column value (`phase_id` resp. `week_id`) and `order_index`. -/
structure SItem where
  id : Nat
  user_id : Nat
  parent_id : Nat
  order_index : Int
  deriving DecidableEq, Repr

/-- A row of the parent table (`phases` resp. `weeks`), as far as the
ownership check reads it. -/
structure SParent where
  id : Nat
  user_id : Nat
  deriving DecidableEq, Repr

/-- Step 3: `UPDATE ... SET order_index = -9999 WHERE id = %s AND user_id = %s`. -/
def evictStep (item_id user_id : Nat) (it : SItem) : SItem :=
  if it.id = item_id ∧ it.user_id = user_id then { it with order_index := -9999 } else it

/-- Cross-parent step 4: `SET order_index = order_index + 1 WHERE user_id = %s
AND parent = %s AND order_index >= new_index`. -/
def makeRoomCross (user_id new_parent_id : Nat) (new_index : Int) (it : SItem) : SItem :=
  if it.user_id = user_id ∧ it.parent_id = new_parent_id ∧ new_index ≤ it.order_index then
    { it with order_index := it.order_index + 1 }
  else it

/-- Same-parent earlier-move step 4: `SET order_index = order_index + 1 WHERE
user_id = %s AND parent = %s AND order_index >= new_index AND order_index <
old_order_index`. -/
def makeRoomEarlier (user_id new_parent_id : Nat) (new_index old_order_index : Int) (it : SItem) : SItem :=
  if it.user_id = user_id ∧ it.parent_id = new_parent_id ∧
      new_index ≤ it.order_index ∧ it.order_index < old_order_index then
    { it with order_index := it.order_index + 1 }
  else it

/-- Same-parent later-move gap close: `SET order_index = order_index - 1 WHERE
user_id = %s AND parent = %s AND order_index > old_order_index AND
order_index <= new_index`. -/
def closeGapLater (user_id old_parent_id : Nat) (old_order_index new_index : Int) (it : SItem) : SItem :=
  if it.user_id = user_id ∧ it.parent_id = old_parent_id ∧
      old_order_index < it.order_index ∧ it.order_index ≤ new_index then
    { it with order_index := it.order_index - 1 }
  else it

/-- Same-parent later-move step 4: `SET order_index = order_index + 1 WHERE
user_id = %s AND parent = %s AND order_index > new_index`. -/
def makeRoomLater (user_id new_parent_id : Nat) (new_index : Int) (it : SItem) : SItem :=
  if it.user_id = user_id ∧ it.parent_id = new_parent_id ∧ new_index < it.order_index then
    { it with order_index := it.order_index + 1 }
  else it

/-- Step 5: `SET parent = %s, order_index = %s WHERE id = %s AND user_id = %s`. -/
def placeStep (item_id user_id new_parent_id : Nat) (new_index : Int) (it : SItem) : SItem :=
  if it.id = item_id ∧ it.user_id = user_id then
    { it with parent_id := new_parent_id, order_index := new_index }
  else it

/-- Cross-parent step 6: `SET order_index = order_index - 1 WHERE user_id = %s
AND parent = %s AND order_index > old_order_index`. -/
def closeGapCross (user_id old_parent_id : Nat) (old_order_index : Int) (it : SItem) : SItem :=
  if it.user_id = user_id ∧ it.parent_id = old_parent_id ∧ old_order_index < it.order_index then
    { it with order_index := it.order_index - 1 }
  else it

/-- `services.structure.reorder_structure`, with the outcome of the final
`conn.commit()` made explicit: `outcomes.headD true` is whether the single
commit the function performs succeeds (`false` models a uniqueness
`ConstraintViolation` raised at commit; the tail of `outcomes` would only be
consulted by retries).  Raised errors abort the transaction, so an
`Except.error` result carries no state and the caller's rows are unchanged.
The no-op branch rolls back before committing and never consults the commit
outcome, exactly as in the source. -/
def reorder_structure_tx (outcomes : List Bool) (items : List SItem) (parents : List SParent)
    (item_id new_parent_id : Nat) (new_index : Int) (user_id : Nat) : Except String (List SItem) :=
  match items.find? (fun it => it.id == item_id && it.user_id == user_id) with
  | none => .error "not found or access denied"
  | some item =>
    if item.parent_id = new_parent_id ∧ item.order_index = new_index then .ok items
    else
      match parents.find? (fun p => p.id == new_parent_id && p.user_id == user_id) with
      | none => .error "New parent not found or access denied"
      | some _ =>
        let old_parent_id := item.parent_id
        let old_order_index := item.order_index
        let s1 := items.map (evictStep item_id user_id)
        let s2 :=
          if old_parent_id ≠ new_parent_id then
            s1.map (makeRoomCross user_id new_parent_id new_index)
          else if new_index < old_order_index then
            s1.map (makeRoomEarlier user_id new_parent_id new_index old_order_index)
          else if old_order_index < new_index then
            (s1.map (closeGapLater user_id old_parent_id old_order_index new_index)).map
              (makeRoomLater user_id new_parent_id new_index)
          else s1
        let s3 := s2.map (placeStep item_id user_id new_parent_id new_index)
        let s4 :=
          if old_parent_id ≠ new_parent_id then
            s3.map (closeGapCross user_id old_parent_id old_order_index)
          else s3
        if outcomes.headD true then .ok s4 else .error "ConstraintViolation"

/-- `reorder_structure` as observed when the commit succeeds (the only
behaviour reachable without a concurrent writer). -/
def reorder_structure (items : List SItem) (parents : List SParent)
    (item_id new_parent_id : Nat) (new_index : Int) (user_id : Nat) : Except String (List SItem) :=
  reorder_structure_tx [] items parents item_id new_parent_id new_index user_id

/-! ## The leaf reorder endpoint (`routes.api.reorder_resource`) -/

/-- Sorted insert by `(sort_order, id)`: the `ORDER BY sort_order, id` of the
scope query. -/
def insOrd (r : Resource) : List Resource → List Resource
  | [] => [r]
  | x :: xs =>
    if r.sort_order < x.sort_order ∨ (r.sort_order = x.sort_order ∧ r.rid ≤ x.rid) then
      r :: x :: xs
    else x :: insOrd r xs

/-- The scope query result: resources of the `(phase, week, day)` group in
`ORDER BY sort_order, id` order. -/
def scopeSorted (rs : List Resource) : List Resource :=
  rs.foldr insOrd []

/-- Zero-based index of an id in a list, if present. -/
def idIndex (x : Nat) : List Nat → Option Nat
  | [] => none
  | y :: ys => if x = y then some 0 else (idIndex x ys).map (· + 1)

/-- `routes.api.reorder_resource`: fetch the ids of the `(phase, week, day)`
scope ordered by `(sort_order, id)`, renumber every scope member to
`i * 10`, then set the moved resource's `sort_order` to
`new_position * 10 + 5` wherever it is — with no existence or ownership
check — and report success unconditionally. -/
def reorder_resource (resource_id : Nat) (new_position : Int) (phase week day : Nat)
    (rs : List Resource) : List Resource × Bool :=
  let ids := (scopeSorted (rs.filter
    (fun r => r.phase_index == phase && r.week == week && r.day == day))).map (·.rid)
  let renumbered := rs.map (fun r =>
    match idIndex r.rid ids with
    | some i => { r with sort_order := (i : Int) * 10 }
    | none => r)
  let final := renumbered.map (fun r =>
    if r.rid = resource_id then { r with sort_order := new_position * 10 + 5 } else r)
  (final, true)

/-! ## Invariant predicates and demonstration states -/

instance {ε α : Type} [DecidableEq ε] [DecidableEq α] : DecidableEq (Except ε α)
  | .error a, .error b =>
    if h : a = b then isTrue (h ▸ rfl) else isFalse (fun hh => h (Except.error.inj hh))
  | .error _, .ok _ => isFalse (fun hh => Except.noConfusion hh)
  | .ok _, .error _ => isFalse (fun hh => Except.noConfusion hh)
  | .ok a, .ok b =>
    if h : a = b then isTrue (h ▸ rfl) else isFalse (fun hh => h (Except.ok.inj hh))

/-- `x ≤ y` on optional dates, vacuously true when either is NULL. -/
def dleB (x y : Option Nat) : Bool :=
  match x, y with
  | some a, some b => decide (a ≤ b)
  | _, _ => true

/-- Date monotonicity: `scheduled_date` is non-decreasing along the
curriculum-day (lexicographic) order of the rows. -/
def schedMono (rs : List Resource) : Prop :=
  ∀ a ∈ rs, ∀ b ∈ rs, keyLt (keyOf a) (keyOf b) → dleB a.scheduled_date b.scheduled_date = true

instance (rs : List Resource) : Decidable (schedMono rs) := by
  unfold schedMono; infer_instance

/-- The `order_index` values of the siblings of one `(user, parent)` scope. -/
def scopePositions (items : List SItem) (u p : Nat) : List Int :=
  (items.filter (fun it => it.user_id == u && it.parent_id == p)).map (·.order_index)

/-- A list of positions is dense and unique: as a multiset it is exactly
`{0, 1, ..., n-1}`. -/
def denseUnique (l : List Int) : Prop :=
  l.Nodup ∧ ∀ k ∈ List.range l.length, (k : Int) ∈ l

instance (l : List Int) : Decidable (denseUnique l) := by
  unfold denseUnique; infer_instance

/-- Pairwise position distinctness within every `(user, parent)` scope:
two rows of the same scope never share an `order_index`. -/
def scopeDistinct (a b : SItem) : Prop :=
  a.user_id = b.user_id → a.parent_id = b.parent_id → a.order_index ≠ b.order_index

instance (a b : SItem) : Decidable (scopeDistinct a b) := by
  unfold scopeDistinct; infer_instance

/-- Helper for building demonstration resource rows. -/
def mkR (i p w d : Nat) (s o : Option Nat) : Resource :=
  { rid := i, phase_index := p, week := w, day := d,
    scheduled_date := s, original_date := o, sort_order := 0 }

/-- Scenario state: 3 Days, each with 2 Resources, nothing scheduled yet. -/
def demo6 : List Resource :=
  [mkR 1 1 1 1 none none, mkR 2 1 1 1 none none,
   mkR 3 1 1 2 none none, mkR 4 1 1 2 none none,
   mkR 5 1 1 3 none none, mkR 6 1 1 3 none none]

/-- A projected state with four one-resource Day-groups
`(1,1,1) < (1,2,1) < (1,2,5) < (2,1,2)` scheduled on days `1 < 2 < 3 < 4`:
dates are strictly monotone along the group order and every invariant of the
data model holds. -/
def demo4 : List Resource :=
  [mkR 1 1 1 1 (some 1) (some 1), mkR 2 1 2 1 (some 2) (some 2),
   mkR 3 1 2 5 (some 3) (some 3), mkR 4 2 1 2 (some 4) (some 4)]

/-- Three sibling containers A, B, C at positions 0, 1, 2 under parent 10 of
user 1. -/
def demoItems : List SItem :=
  [{ id := 1, user_id := 1, parent_id := 10, order_index := 0 },
   { id := 2, user_id := 1, parent_id := 10, order_index := 1 },
   { id := 3, user_id := 1, parent_id := 10, order_index := 2 }]

/-- The parent table for the demonstration: parent 10 owned by user 1. -/
def demoParents : List SParent :=
  [{ id := 10, user_id := 1 }]

/-- Two resources of the same Day-group with `sort_order` 7 and 3. -/
def demoLeaves : List Resource :=
  [{ rid := 1, phase_index := 1, week := 1, day := 1,
     scheduled_date := none, original_date := none, sort_order := 7 },
   { rid := 2, phase_index := 1, week := 1, day := 1,
     scheduled_date := none, original_date := none, sort_order := 3 }]

/-! ## Concrete evaluations settling the scenario claim and refuting others -/

/-- C6: with 3 Days of 2 Resources each, `project(2024-01-01)` (day 1) with no
blocked dates assigns days 1, 2, 3 to the three groups; blocking day 2
(2024-01-02) and recalculating from day 1 keeps Day 1 on day 1, moves Day 2
to day 3 and Day 3 to day 4, and leaves no resource scheduled on day 2. -/
theorem concrete_scenarios_project_and_block :
    (calculate_schedule 1 [] demo6).map (·.scheduled_date) =
      [some 1, some 1, some 2, some 2, some 3, some 3] ∧
    (recalculate_schedule_from 1 [2] (calculate_schedule 1 [] demo6)).map (·.scheduled_date) =
      [some 1, some 1, some 3, some 3, some 4, some 4] ∧
    ((recalculate_schedule_from 1 [2] (calculate_schedule 1 [] demo6)).all
      (fun r => r.scheduled_date != some 2)) = true := by
  decide

/-- C1 counterexample: `demo4` satisfies the global-ordering invariant
(distinct keys) and date monotonicity, its second group `(1,2,1)` is
scheduled on day 2, strictly before the pivot 3 — yet
`recalculate_schedule_from 3` rewrites it to day 3, because the componentwise
minima over the affected rows `(1,2,5) ↦ 3` and `(2,1,2) ↦ 4` are
`(1,1,2)`, and `(1,2,1)` lies in the re-walked region of that triple. -/
theorem recalc_rewrites_group_before_pivot :
    (demo4.map keyOf).Nodup ∧ schedMono demo4 ∧
    demo4[1]?.map (·.scheduled_date) = some (some 2) ∧
    (2 : Nat) < 3 ∧
    (recalculate_schedule_from 3 [] demo4)[1]?.map (·.scheduled_date) = some (some 3) := by
  decide

/-- C4: on `demo4` (a state satisfying every data-model invariant) two
consecutive `recalculate_schedule_from 3` calls disagree: the first rewrites
groups `(1,2,1), (1,2,5), (2,1,2)` to days 3, 4, 5; the second also pulls in
group `(1,1,1)` — its day 1 entered the affected set, lowering the
componentwise day-minimum to 1 — and shifts everything to days 3, 4, 5, 6. -/
theorem recalc_not_idempotent :
    (recalculate_schedule_from 3 [] demo4).map (·.scheduled_date) =
      [some 1, some 3, some 4, some 5] ∧
    (recalculate_schedule_from 3 [] (recalculate_schedule_from 3 [] demo4)).map (·.scheduled_date) =
      [some 3, some 4, some 5, some 6] ∧
    recalculate_schedule_from 3 [] (recalculate_schedule_from 3 [] demo4) ≠
      recalculate_schedule_from 3 [] demo4 := by
  decide

/-- C2 counterexample: moving container A from position 0 to position 1 in
its own parent succeeds but leaves positions `1, 0, 3` — sibling C is bumped
from 2 to 3 by the extra `order_index > new_index` increment, so the scope is
no longer dense; and a successful leaf reorder of resource 1 to position 1
produces `sort_order` values `15, 0`, nothing like the dense range `0..n-1`. -/
theorem move_density_fails :
    reorder_structure demoItems demoParents 1 10 1 1 =
      .ok [{ id := 1, user_id := 1, parent_id := 10, order_index := 1 },
           { id := 2, user_id := 1, parent_id := 10, order_index := 0 },
           { id := 3, user_id := 1, parent_id := 10, order_index := 3 }] ∧
    ¬ denseUnique (scopePositions
      [{ id := 1, user_id := 1, parent_id := 10, order_index := 1 },
       { id := 2, user_id := 1, parent_id := 10, order_index := 0 },
       { id := 3, user_id := 1, parent_id := 10, order_index := 3 }] 1 10) ∧
    (reorder_resource 1 1 1 1 1 demoLeaves).2 = true ∧
    ¬ denseUnique ((reorder_resource 1 1 1 1 1 demoLeaves).1.map (·.sort_order)) := by
  decide

/-- C3 counterexample: with siblings A, B, C at 0, 1, 2, moving A to position
1 and immediately back to position 0 returns A and B to their original
positions but leaves C at 3 instead of 2. -/
theorem move_round_trip_fails :
    (reorder_structure demoItems demoParents 1 10 1 1).bind
        (fun s => reorder_structure s demoParents 1 10 0 1) =
      .ok [{ id := 1, user_id := 1, parent_id := 10, order_index := 0 },
           { id := 2, user_id := 1, parent_id := 10, order_index := 1 },
           { id := 3, user_id := 1, parent_id := 10, order_index := 3 }] ∧
    demoItems[2]?.map (·.order_index) = some 2 := by
  decide

/-- C8 counterexample: when the first commit raises a uniqueness violation,
the move surfaces the transient error immediately even though a single retry
(second outcome `true`) would have committed — the engine performs no
retry. -/
theorem commit_failure_not_retried :
    reorder_structure_tx [false, true] demoItems demoParents 1 10 1 1 =
      .error "ConstraintViolation" := by
  decide

/-- C9 counterexample: the leaf reorder endpoint, invoked with a resource id
(999) that exists nowhere, still reports success and still renumbers the
`sort_order` of every sibling of the addressed Day-group — no `NotFound`
error and no absence of mutation. -/
theorem leaf_reorder_ignores_missing_resource :
    (demoLeaves.all (fun r => r.rid != 999)) = true ∧
    reorder_resource 999 0 1 1 1 demoLeaves =
      ([{ rid := 1, phase_index := 1, week := 1, day := 1,
          scheduled_date := none, original_date := none, sort_order := 10 },
        { rid := 2, phase_index := 1, week := 1, day := 1,
          scheduled_date := none, original_date := none, sort_order := 0 }], true) ∧
    (reorder_resource 999 0 1 1 1 demoLeaves).1 ≠ demoLeaves := by
  decide

/-! ## Basic lemmas about the schedule walk -/

theorem le_nextFreeGo (fuel : Nat) : ∀ (b : List Nat) (c : Nat), c ≤ nextFreeGo fuel b c := by
  induction fuel with
  | zero => intro b c; simp [nextFreeGo]
  | succ n ih =>
    intro b c
    simp only [nextFreeGo]
    split
    · exact Nat.le_trans (Nat.le_succ c) (ih _ _)
    · exact Nat.le_refl c

theorem length_filter_ne_lt {b : List Nat} {c : Nat} (h : c ∈ b) :
    (b.filter (fun x => x != c)).length < b.length := by
  induction b with
  | nil => cases h
  | cons y ys ih =>
    by_cases hyc : y = c
    · subst hyc
      have h1 : List.filter (fun x => x != y) (y :: ys) = List.filter (fun x => x != y) ys := by
        simp [List.filter_cons]
      rw [h1]
      have h2 := List.length_filter_le (fun x => x != y) ys
      simp only [List.length_cons]
      omega
    · have hcys : c ∈ ys := by
        rcases List.mem_cons.mp h with hh | hh
        · exact absurd hh.symm hyc
        · exact hh
      have hb : (y != c) = true := bne_iff_ne.mpr hyc
      have h1 : List.filter (fun x => x != c) (y :: ys) = y :: List.filter (fun x => x != c) ys := by
        simp [List.filter_cons, hb]
      rw [h1]
      simp only [List.length_cons]
      have := ih hcys
      omega

theorem nextFreeGo_not_mem :
    ∀ (fuel : Nat) (b : List Nat) (c : Nat), b.length ≤ fuel → nextFreeGo fuel b c ∉ b := by
  intro fuel
  induction fuel with
  | zero =>
    intro b c hlen
    have : b = [] := List.length_eq_zero.mp (Nat.le_zero.mp hlen)
    subst this
    simp
  | succ n ih =>
    intro b c hlen
    simp only [nextFreeGo]
    split
    · rename_i hc
      have hflt : (b.filter (fun x => x != c)).length ≤ n := by
        have := length_filter_ne_lt hc
        omega
      have hres := ih _ (c + 1) hflt
      intro hmem
      by_cases hrc : nextFreeGo n (b.filter (fun x => x != c)) (c + 1) = c
      · have := le_nextFreeGo n (b.filter (fun x => x != c)) (c + 1)
        omega
      · exact hres (List.mem_filter.mpr ⟨hmem, bne_iff_ne.mpr hrc⟩)
    · assumption

theorem le_nextFree (b : List Nat) (c : Nat) : c ≤ nextFree b c :=
  le_nextFreeGo _ _ _

theorem nextFree_not_mem (b : List Nat) (c : Nat) : nextFree b c ∉ b :=
  nextFreeGo_not_mem _ _ _ (Nat.le_refl _)

theorem walk_map_fst (b : List Nat) :
    ∀ (c : Nat) (ks : List (Nat × Nat × Nat)), (walk b c ks).map Prod.fst = ks := by
  intro c ks
  induction ks generalizing c with
  | nil => simp [walk]
  | cons k ks ih => simp [walk, ih]

theorem walk_mem (b : List Nat) :
    ∀ (c : Nat) (ks : List (Nat × Nat × Nat)) (kd : (Nat × Nat × Nat) × Nat),
      kd ∈ walk b c ks → c ≤ kd.2 ∧ kd.2 ∉ b := by
  intro c ks
  induction ks generalizing c with
  | nil => intro kd h; cases h
  | cons k ks ih =>
    intro kd h
    rcases List.mem_cons.mp h with hh | hh
    · subst hh
      exact ⟨le_nextFree b c, nextFree_not_mem b c⟩
    · have := ih (nextFree b c + 1) kd hh
      have hle := le_nextFree b c
      exact ⟨by omega, this.2⟩

theorem walk_chain (b : List Nat) :
    ∀ (c : Nat) (ks : List (Nat × Nat × Nat)),
      List.Chain' (fun x y : (Nat × Nat × Nat) × Nat => x.2 < y.2) (walk b c ks) := by
  intro c ks
  induction ks generalizing c with
  | nil => simp [walk]
  | cons k ks ih =>
    cases ks with
    | nil => simp [walk]
    | cons k2 ks2 =>
      simp only [walk]
      refine List.Chain'.cons ?_ ?_
      · have := le_nextFree b (nextFree b c + 1)
        omega
      · exact ih (nextFree b c + 1)

/-! ## Lemmas about assignment lookup and key enumeration -/

theorem findDate_eq_none {k : Nat × Nat × Nat} :
    ∀ {l : List ((Nat × Nat × Nat) × Nat)}, findDate k l = none ↔ k ∉ l.map Prod.fst := by
  intro l
  induction l with
  | nil => simp [findDate]
  | cons kd rest ih =>
    obtain ⟨k', dd⟩ := kd
    by_cases hk : k = k' <;> simp [findDate, hk, ih]

theorem findDate_mem {k : Nat × Nat × Nat} :
    ∀ {l : List ((Nat × Nat × Nat) × Nat)} {dd : Nat}, findDate k l = some dd → (k, dd) ∈ l := by
  intro l
  induction l with
  | nil => intro dd h; cases h
  | cons kd rest ih =>
    intro dd h
    obtain ⟨k', d'⟩ := kd
    by_cases hk : k = k'
    · subst hk
      simp [findDate] at h
      subst h
      exact List.mem_cons_self _ _
    · simp [findDate, hk] at h
      exact List.mem_cons_of_mem _ (ih h)

theorem findDate_isSome {k : Nat × Nat × Nat} {l : List ((Nat × Nat × Nat) × Nat)}
    (h : k ∈ l.map Prod.fst) : ∃ dd, findDate k l = some dd := by
  cases hf : findDate k l with
  | none => exact absurd h (findDate_eq_none.mp hf)
  | some dd => exact ⟨dd, rfl⟩

theorem mem_insertKey (k : Nat × Nat × Nat) : ∀ (l : List (Nat × Nat × Nat)), k ∈ insertKey k l := by
  intro l
  induction l with
  | nil => simp [insertKey]
  | cons x xs ih =>
    by_cases hk : k = x
    · simp [insertKey, hk]
    · by_cases hlt : keyLt k x <;> simp [insertKey, hk, hlt, ih]

theorem mem_insertKey_of_mem {a : Nat × Nat × Nat} (k : Nat × Nat × Nat) :
    ∀ {l : List (Nat × Nat × Nat)}, a ∈ l → a ∈ insertKey k l := by
  intro l h
  induction l with
  | nil => cases h
  | cons x xs ih =>
    by_cases hk : k = x
    · simpa [insertKey, hk] using h
    · by_cases hlt : keyLt k x
      · simp [insertKey, hk, hlt, h]
      · rcases List.mem_cons.mp h with hh | hh
        · simp [insertKey, hk, hlt, hh]
        · simp [insertKey, hk, hlt, ih hh]

theorem mem_sortedKeys {rs : List Resource} {r : Resource} (h : r ∈ rs) :
    keyOf r ∈ sortedKeys rs := by
  induction rs with
  | nil => cases h
  | cons r0 rs ih =>
    rcases List.mem_cons.mp h with hh | hh
    · subst hh
      exact mem_insertKey _ _
    · exact mem_insertKey_of_mem _ (ih hh)

theorem insertKey_ne_nil (k : Nat × Nat × Nat) (l : List (Nat × Nat × Nat)) :
    insertKey k l ≠ [] := by
  cases l with
  | nil => simp [insertKey]
  | cons x xs =>
    by_cases hk : k = x
    · simp [insertKey, hk]
    · by_cases hlt : keyLt k x <;> simp [insertKey, hk, hlt]

theorem sortedKeys_eq_nil {rs : List Resource} (h : sortedKeys rs = []) : rs = [] := by
  cases rs with
  | nil => rfl
  | cons r rs => exact absurd h (insertKey_ne_nil _ _)

theorem foldl_min_le (xs : List Nat) :
    ∀ acc : Nat, xs.foldl Nat.min acc ≤ acc ∧ ∀ a ∈ xs, xs.foldl Nat.min acc ≤ a := by
  induction xs with
  | nil => intro acc; simp
  | cons y ys ih =>
    intro acc
    have h := ih (Nat.min acc y)
    refine ⟨?_, ?_⟩
    · have : Nat.min acc y ≤ acc := Nat.min_le_left _ _
      simpa using Nat.le_trans h.1 this
    · intro a ha
      rcases List.mem_cons.mp ha with hh | hh
      · have h3 : Nat.min acc y ≤ y := Nat.min_le_right _ _
        have h4 := Nat.le_trans h.1 h3
        rw [hh]
        simpa using h4
      · simpa using h.2 a hh

theorem listMin_le {l : List Nat} {a : Nat} (h : a ∈ l) : listMin l ≤ a := by
  cases l with
  | nil => cases h
  | cons x xs =>
    rcases List.mem_cons.mp h with hh | hh
    · subst hh
      exact (foldl_min_le xs a).1
    · exact (foldl_min_le xs x).2 a hh

/-! ## Lemmas about the recalculation region -/

theorem mem_affectedRes {d : Nat} {rs : List Resource} {r : Resource} :
    r ∈ affectedRes d rs ↔ r ∈ rs ∧ ∃ s, r.scheduled_date = some s ∧ d ≤ s := by
  unfold affectedRes
  rw [List.mem_filter]
  cases hs : r.scheduled_date with
  | none => simp [hs]
  | some s => simp [hs]

theorem affected_regionCond {d : Nat} {rs : List Resource} {r : Resource}
    (h : r ∈ affectedRes d rs) : regionCond (recalcMins d rs) (keyOf r) := by
  have h1 : listMin ((affectedRes d rs).map (·.phase_index)) ≤ r.phase_index :=
    listMin_le (List.mem_map.mpr ⟨r, h, rfl⟩)
  have h2 : listMin ((affectedRes d rs).map (·.week)) ≤ r.week :=
    listMin_le (List.mem_map.mpr ⟨r, h, rfl⟩)
  have h3 : listMin ((affectedRes d rs).map (·.day)) ≤ r.day :=
    listMin_le (List.mem_map.mpr ⟨r, h, rfl⟩)
  unfold regionCond recalcMins keyOf
  simp only
  omega

theorem affected_mem_recalcKeys {d : Nat} {rs : List Resource} {r : Resource}
    (h : r ∈ affectedRes d rs) : keyOf r ∈ recalcKeys d rs := by
  unfold recalcKeys
  refine List.mem_filter.mpr ⟨?_, ?_⟩
  · exact mem_sortedKeys (List.mem_of_mem_filter h)
  · exact decide_eq_true (affected_regionCond h)

/-! ## The recalculation as a per-row map -/

theorem assignResource_nil (so : Bool) (r : Resource) : assignResource [] so r = r := by
  simp [assignResource, findDate]

theorem applyAssign_nil (so : Bool) (rs : List Resource) : applyAssign [] so rs = rs := by
  unfold applyAssign
  have : rs.map (assignResource [] so) = rs.map (fun r => r) := by
    exact List.map_congr_left (fun r _ => assignResource_nil so r)
  rw [this, List.map_id']

theorem recalc_eq_applyAssign (d : Nat) (blocked : List Nat) (rs : List Resource) :
    recalculate_schedule_from d blocked rs = applyAssign (recalcAssignments d blocked rs) false rs := by
  unfold recalculate_schedule_from recalcAssignments
  by_cases haff : (affectedRes d rs).isEmpty
  · simp only [haff, if_pos, if_true]
    exact (applyAssign_nil false rs).symm
  · simp only [haff, if_neg, if_false, Bool.false_eq_true]
    by_cases hkeys : (recalcKeys d rs).isEmpty
    · have hnil : recalcKeys d rs = [] := List.isEmpty_iff.mp hkeys
      simp only [hkeys, if_pos, if_true, hnil, walk]
      exact (applyAssign_nil false rs).symm
    · simp [hkeys]

/-! ## Claim theorems about the schedule engine -/

/-- C10: every date the recalculation writes lies on or after the pivot, the
dates written to successive re-walked Day-groups are strictly increasing, and
the recalculation result is exactly these assignments applied row by row. -/
theorem recalc_dates_forward_and_increasing (d : Nat) (blocked : List Nat) (rs : List Resource) :
    (∀ kd ∈ recalcAssignments d blocked rs, d ≤ kd.2) ∧
    List.Chain' (fun x y : (Nat × Nat × Nat) × Nat => x.2 < y.2) (recalcAssignments d blocked rs) ∧
    recalculate_schedule_from d blocked rs = applyAssign (recalcAssignments d blocked rs) false rs := by
  refine ⟨?_, ?_, recalc_eq_applyAssign d blocked rs⟩
  · intro kd hkd
    unfold recalcAssignments at hkd
    by_cases haff : (affectedRes d rs).isEmpty
    · simp [haff] at hkd
    · simp only [haff, if_neg, Bool.false_eq_true, if_false] at hkd
      exact (walk_mem _ _ _ _ hkd).1
  · unfold recalcAssignments
    by_cases haff : (affectedRes d rs).isEmpty
    · simp [haff]
    · simp only [haff, if_neg, Bool.false_eq_true, if_false]
      exact walk_chain _ _ _

/-- C10 witness: on `demo4` with pivot 3, the first re-walked assignment is
group `(1,2,1)` at day 3, which is on or after the pivot. -/
theorem recalc_dates_forward_and_increasing_witness :
    (3 : Nat) ≤ ((((1, 2, 1) : Nat × Nat × Nat), (3 : Nat)) : (Nat × Nat × Nat) × Nat).2 :=
  (recalc_dates_forward_and_increasing 3 [] demo4).1 ((1, 2, 1), 3) (by decide)

/-- C7: `original_date` (`first_assigned_date`), once set, is preserved by
every later `calculate_schedule` and every later `recalculate_schedule_from`
call, whatever they do to `scheduled_date`. -/
theorem original_date_immutable (start_date d : Nat) (b1 b2 : List Nat) (rs : List Resource)
    (i : Nat) (r : Resource) (x : Nat)
    (hr : rs[i]? = some r) (hx : r.original_date = some x) :
    (∃ r1, (calculate_schedule start_date b1 rs)[i]? = some r1 ∧ r1.original_date = some x) ∧
    (∃ r2, (recalculate_schedule_from d b2 rs)[i]? = some r2 ∧ r2.original_date = some x) := by
  constructor
  · unfold calculate_schedule
    by_cases hemp : (sortedKeys rs).isEmpty
    · exact ⟨r, by simp [hemp, hr], hx⟩
    · refine ⟨assignResource (walk b1 start_date (sortedKeys rs)) true r, ?_, ?_⟩
      · simp [hemp, applyAssign, List.getElem?_map, hr]
      · unfold assignResource
        cases hfd : findDate (keyOf r) (walk b1 start_date (sortedKeys rs)) with
        | none => exact hx
        | some dd => simp [hx]
  · rw [recalc_eq_applyAssign]
    refine ⟨assignResource (recalcAssignments d b2 rs) false r, ?_, ?_⟩
    · simp [applyAssign, List.getElem?_map, hr]
    · unfold assignResource
      cases hfd : findDate (keyOf r) (recalcAssignments d b2 rs) with
      | none => exact hx
      | some dd => simp [hx]

/-- C7 witness: the first resource of the projected `demo6` has
`original_date = some 1`, and it is still `some 1` after a further projection
from day 5 and after a recalculation from day 1 with day 2 blocked. -/
theorem original_date_immutable_witness :
    (∃ r1, (calculate_schedule 5 [] (calculate_schedule 1 [] demo6))[0]? = some r1 ∧
      r1.original_date = some 1) ∧
    (∃ r2, (recalculate_schedule_from 1 [2] (calculate_schedule 1 [] demo6))[0]? = some r2 ∧
      r2.original_date = some 1) :=
  original_date_immutable 5 1 [] [2] (calculate_schedule 1 [] demo6) 0
    (mkR 1 1 1 1 (some 1) (some 1)) 1 (by decide) (by decide)

/-- The region condition fails for every key lexicographically before the
componentwise-minimum triple. -/
theorem not_regionCond_of_keyLt {k m : Nat × Nat × Nat} (h : keyLt k m) : ¬ regionCond m k := by
  unfold keyLt at h
  unfold regionCond
  omega

/-- C1 (amended): `recalculate_schedule_from` leaves every row whose
curriculum key is lexicographically before the componentwise-minimum triple
`(MIN(phase), MIN(week), MIN(day))` of the affected rows completely
unchanged — both `scheduled_date` and `original_date`.  (The untouched region
is this lexicographic prefix, which can be strictly smaller than the set of
groups scheduled before the pivot, as `recalc_rewrites_group_before_pivot`
shows.) -/
theorem recalc_frame_before_componentwise_min (d : Nat) (blocked : List Nat) (rs : List Resource)
    (i : Nat) (r : Resource) (hr : rs[i]? = some r)
    (hk : keyLt (keyOf r) (recalcMins d rs)) :
    (recalculate_schedule_from d blocked rs)[i]? = some r := by
  rw [recalc_eq_applyAssign]
  unfold applyAssign
  rw [List.getElem?_map, hr]
  have hfd : findDate (keyOf r) (recalcAssignments d blocked rs) = none := by
    refine findDate_eq_none.mpr ?_
    intro hmem
    unfold recalcAssignments at hmem
    by_cases haff : (affectedRes d rs).isEmpty
    · simp [haff] at hmem
    · simp only [haff, if_neg, Bool.false_eq_true, if_false] at hmem
      rw [walk_map_fst] at hmem
      have hcond := (List.mem_filter.mp hmem).2
      exact not_regionCond_of_keyLt hk (of_decide_eq_true hcond)
  simp [assignResource, hfd]

/-- C1 witness: on `demo4` with pivot 3 the componentwise minima are
`(1,1,2)`; group `(1,1,1)` lies lexicographically before them and its row is
untouched by the recalculation. -/
theorem recalc_frame_before_componentwise_min_witness :
    (recalculate_schedule_from 3 [] demo4)[0]? = some (mkR 1 1 1 1 (some 1) (some 1)) :=
  recalc_frame_before_componentwise_min 3 [] demo4 0 (mkR 1 1 1 1 (some 1) (some 1))
    (by decide) (by decide)

/-- C5: no `scheduled_date` ever equals a blocked date: (a) after any
`calculate_schedule` call, every row's date avoids the blocked set consulted;
(b) after a `recalculate_schedule_from d` call issued when the blocked set
changes at date `d` — so every blocked date below `d` was already blocked
before, and the pre-state avoided the previous blocked set — every row's
date avoids the new blocked set. -/
theorem schedule_avoids_blocked_dates :
    (∀ (start_date : Nat) (blocked : List Nat) (rs : List Resource) (r : Resource),
      r ∈ calculate_schedule start_date blocked rs →
      ∀ s, r.scheduled_date = some s → s ∉ blocked) ∧
    (∀ (d : Nat) (oldB newB : List Nat) (rs : List Resource),
      (∀ q ∈ rs, ∀ s, q.scheduled_date = some s → s ∉ oldB) →
      (∀ x ∈ newB, x < d → x ∈ oldB) →
      ∀ r ∈ recalculate_schedule_from d newB rs, ∀ s, r.scheduled_date = some s → s ∉ newB) := by
  constructor
  · intro start_date blocked rs r hmem s hs
    unfold calculate_schedule at hmem
    by_cases hemp : (sortedKeys rs).isEmpty
    · rw [if_pos hemp] at hmem
      rw [sortedKeys_eq_nil (List.isEmpty_iff.mp hemp)] at hmem
      cases hmem
    · rw [if_neg hemp] at hmem
      obtain ⟨q, hq, rfl⟩ := List.mem_map.mp hmem
      have hkey : keyOf q ∈ (walk blocked start_date (sortedKeys rs)).map Prod.fst := by
        rw [walk_map_fst]
        exact mem_sortedKeys hq
      obtain ⟨dd, hfd⟩ := findDate_isSome hkey
      have hsched : (assignResource (walk blocked start_date (sortedKeys rs)) true q).scheduled_date
          = some dd := by
        simp [assignResource, hfd]
      rw [hsched] at hs
      cases hs
      exact (walk_mem blocked start_date (sortedKeys rs) _ (findDate_mem hfd)).2
  · intro d oldB newB rs H1 H2 r hmem s hs hsmem
    rw [recalc_eq_applyAssign] at hmem
    obtain ⟨q, hq, rfl⟩ := List.mem_map.mp hmem
    cases hfd : findDate (keyOf q) (recalcAssignments d newB rs) with
    | some dd =>
      have hsched : (assignResource (recalcAssignments d newB rs) false q).scheduled_date
          = some dd := by
        simp [assignResource, hfd]
      rw [hsched] at hs
      cases hs
      have hpair := findDate_mem hfd
      unfold recalcAssignments at hpair
      by_cases haff : (affectedRes d rs).isEmpty
      · rw [if_pos haff] at hpair
        cases hpair
      · rw [if_neg haff] at hpair
        have hwm := walk_mem _ _ _ _ hpair
        exact hwm.2 (List.mem_filter.mpr ⟨hsmem, decide_eq_true hwm.1⟩)
    | none =>
      have hreq : assignResource (recalcAssignments d newB rs) false q = q := by
        simp [assignResource, hfd]
      rw [hreq] at hs
      by_cases hds : d ≤ s
      · have hqa : q ∈ affectedRes d rs := mem_affectedRes.mpr ⟨hq, s, hs, hds⟩
        have hkeys : keyOf q ∈ recalcKeys d rs := affected_mem_recalcKeys hqa
        have haffne : ¬ (affectedRes d rs).isEmpty := by
          intro hc
          rw [List.isEmpty_iff.mp hc] at hqa
          cases hqa
        have hmemf : keyOf q ∈ (recalcAssignments d newB rs).map Prod.fst := by
          unfold recalcAssignments
          rw [if_neg haffne, walk_map_fst]
          exact hkeys
        exact absurd hmemf (findDate_eq_none.mp hfd)
      · have hsd : s < d := Nat.lt_of_not_le hds
        exact H1 q hq s hs (H2 s hsmem hsd)

/-- C5 witness: in the projection of `demo6` with day 2 blocked, the first
resource is scheduled on day 1 ∉ {2}; and after blocking day 2 and
recalculating the projected schedule from day 2 (previous blocked set empty),
the Day-2 group's resource is scheduled on day 3 ∉ {2}. -/
theorem schedule_avoids_blocked_dates_witness :
    (1 : Nat) ∉ ([2] : List Nat) ∧ (3 : Nat) ∉ ([2] : List Nat) :=
  ⟨schedule_avoids_blocked_dates.1 1 [2] demo6 (mkR 1 1 1 1 (some 1) (some 1))
      (by decide) 1 (by decide),
    schedule_avoids_blocked_dates.2 2 [] [2] (calculate_schedule 1 [] demo6)
      (by intro q hq s hsq hc; cases hc) (by decide)
      (mkR 3 1 1 2 (some 3) (some 2)) (by decide) 3 (by decide)⟩

/-! ## Claim theorems about the reorder engine's error handling -/

/-- C8 (amended): the move transaction consults only the outcome of its
single commit; there is no retry — the behaviour on any outcome sequence is
the behaviour on its first element alone, so a first-commit uniqueness
violation always surfaces (`commit_failure_not_retried` shows it surfacing
even when a retry would have succeeded). -/
theorem reorder_consults_only_first_commit_outcome (outcomes : List Bool) (items : List SItem)
    (parents : List SParent) (item_id new_parent_id : Nat) (new_index : Int) (user_id : Nat) :
    reorder_structure_tx outcomes items parents item_id new_parent_id new_index user_id =
      reorder_structure_tx (outcomes.take 1) items parents item_id new_parent_id new_index user_id := by
  cases outcomes <;> rfl

/-- C9 (amended, container part): a container move whose item id is absent
(or not owned by the caller) fails with the "not found" error, and one whose
new parent is absent (or not owned) fails with the "new parent not found"
error; an error result aborts the transaction, so no stored position
changes.  (The leaf endpoint has no such check:
`leaf_reorder_ignores_missing_resource`.) -/
theorem reorder_structure_not_found_errors (items : List SItem) (parents : List SParent)
    (item_id new_parent_id : Nat) (new_index : Int) (user_id : Nat) :
    (items.find? (fun it => it.id == item_id && it.user_id == user_id) = none →
      reorder_structure items parents item_id new_parent_id new_index user_id =
        .error "not found or access denied") ∧
    (∀ item, items.find? (fun it => it.id == item_id && it.user_id == user_id) = some item →
      ¬(item.parent_id = new_parent_id ∧ item.order_index = new_index) →
      parents.find? (fun p => p.id == new_parent_id && p.user_id == user_id) = none →
      reorder_structure items parents item_id new_parent_id new_index user_id =
        .error "New parent not found or access denied") := by
  constructor
  · intro h
    unfold reorder_structure reorder_structure_tx
    rw [h]
  · intro item hf hnoop hp
    unfold reorder_structure reorder_structure_tx
    rw [hf]
    simp only [if_neg hnoop]
    rw [hp]

/-- C9 witness: on the demonstration hierarchy, moving the absent item 99
errors with "not found", and moving item 1 to the absent parent 77 errors
with "new parent not found". -/
theorem reorder_structure_not_found_errors_witness :
    reorder_structure demoItems demoParents 99 10 0 1 =
      .error "not found or access denied" ∧
    reorder_structure demoItems demoParents 1 77 5 1 =
      .error "New parent not found or access denied" :=
  ⟨(reorder_structure_not_found_errors demoItems demoParents 99 10 0 1).1 (by decide),
   (reorder_structure_not_found_errors demoItems demoParents 1 77 5 1).2
     { id := 1, user_id := 1, parent_id := 10, order_index := 0 }
     (by decide) (by decide) (by decide)⟩

/-! ## Position uniqueness preservation of the container move -/

theorem crossF_other (item_id user_id new_parent_id old_parent_id : Nat) (new_index old_index : Int)
    (c : SItem) (hcx : ¬(c.id = item_id ∧ c.user_id = user_id))
    (hne : old_parent_id ≠ new_parent_id) :
    closeGapCross user_id old_parent_id old_index
      (placeStep item_id user_id new_parent_id new_index
        (makeRoomCross user_id new_parent_id new_index (evictStep item_id user_id c))) =
    { c with order_index :=
        if c.user_id = user_id then
          if c.parent_id = new_parent_id then
            if new_index ≤ c.order_index then c.order_index + 1 else c.order_index
          else if c.parent_id = old_parent_id then
            if old_index < c.order_index then c.order_index - 1 else c.order_index
          else c.order_index
        else c.order_index } := by
  obtain ⟨cid, cu, cp, cpos⟩ := c
  simp only [evictStep, makeRoomCross, placeStep, closeGapCross] at *
  rw [if_neg hcx]
  by_cases hcu : cu = user_id
  · have hcid : ¬ cid = item_id := fun h => hcx ⟨h, hcu⟩
    have hnp : ¬ new_parent_id = old_parent_id := fun h => hne h.symm
    by_cases hcp : cp = new_parent_id
    · by_cases hj : new_index ≤ cpos <;>
        simp [hcu, hcp, hj, hcid, hnp]
    · by_cases hop : cp = old_parent_id
      · by_cases hi : old_index < cpos <;>
          simp [hcu, hcp, hop, hi, hcid, hne]
      · simp [hcu, hcp, hop, hcid]
  · simp [hcu, hcx]

theorem earlierF_other (item_id user_id P : Nat) (j i : Int) (c : SItem)
    (hcx : ¬(c.id = item_id ∧ c.user_id = user_id)) :
    placeStep item_id user_id P j (makeRoomEarlier user_id P j i (evictStep item_id user_id c)) =
    { c with order_index :=
        if c.user_id = user_id then
          if c.parent_id = P then
            if j ≤ c.order_index then
              if c.order_index < i then c.order_index + 1 else c.order_index
            else c.order_index
          else c.order_index
        else c.order_index } := by
  obtain ⟨cid, cu, cp, cpos⟩ := c
  simp only [evictStep, makeRoomEarlier, placeStep] at *
  rw [if_neg hcx]
  by_cases hcu : cu = user_id
  · have hcid : ¬ cid = item_id := fun h => hcx ⟨h, hcu⟩
    by_cases hcp : cp = P
    · by_cases hj : j ≤ cpos
      · by_cases hi : cpos < i <;> simp [hcu, hcp, hj, hi, hcid]
      · simp [hcu, hcp, hj, hcid]
    · simp [hcu, hcp, hcid]
  · simp [hcu, hcx]

theorem laterF_other (item_id user_id P : Nat) (i j : Int) (c : SItem)
    (hcx : ¬(c.id = item_id ∧ c.user_id = user_id)) (hij : i < j) :
    placeStep item_id user_id P j
      (makeRoomLater user_id P j (closeGapLater user_id P i j (evictStep item_id user_id c))) =
    { c with order_index :=
        if c.user_id = user_id then
          if c.parent_id = P then
            if i < c.order_index then
              if c.order_index ≤ j then c.order_index - 1 else c.order_index + 1
            else c.order_index
          else c.order_index
        else c.order_index } := by
  obtain ⟨cid, cu, cp, cpos⟩ := c
  simp only [evictStep, closeGapLater, makeRoomLater, placeStep] at *
  rw [if_neg hcx]
  by_cases hcu : cu = user_id
  · have hcid : ¬ cid = item_id := fun h => hcx ⟨h, hcu⟩
    by_cases hcp : cp = P
    · by_cases hi : i < cpos
      · by_cases hj : cpos ≤ j
        · have h1 : ¬ j < cpos - 1 := by omega
          simp [hcu, hcp, hi, hj, hcid, h1]
        · have h2 : j < cpos := by omega
          simp [hcu, hcp, hi, hj, hcid, h2]
      · have h3 : ¬ j < cpos := by omega
        simp [hcu, hcp, hi, hcid, h3]
    · simp [hcu, hcp, hcid]
  · simp [hcu, hcx]

theorem crossF_item (item_id user_id new_parent_id old_parent_id : Nat) (new_index old_index : Int)
    (c : SItem) (hcid : c.id = item_id) (hcu : c.user_id = user_id)
    (hcp : c.parent_id ≠ new_parent_id) (hne : old_parent_id ≠ new_parent_id) :
    closeGapCross user_id old_parent_id old_index
      (placeStep item_id user_id new_parent_id new_index
        (makeRoomCross user_id new_parent_id new_index (evictStep item_id user_id c))) =
    { c with parent_id := new_parent_id, order_index := new_index } := by
  obtain ⟨cid, cu, cp, cpos⟩ := c
  simp only at hcid hcu hcp
  subst hcid
  subst hcu
  have hnp : ¬ new_parent_id = old_parent_id := fun h => hne h.symm
  simp only [evictStep, makeRoomCross, placeStep, closeGapCross]
  split_ifs <;> simp_all

theorem earlierF_item (item_id user_id P : Nat) (j i : Int) (c : SItem)
    (hcid : c.id = item_id) (hcu : c.user_id = user_id) :
    placeStep item_id user_id P j (makeRoomEarlier user_id P j i (evictStep item_id user_id c)) =
    { c with parent_id := P, order_index := j } := by
  obtain ⟨cid, cu, cp, cpos⟩ := c
  simp only at hcid hcu
  subst hcid
  subst hcu
  simp only [evictStep, makeRoomEarlier, placeStep]
  split_ifs <;> simp_all

theorem laterF_item (item_id user_id P : Nat) (i j : Int) (c : SItem)
    (hcid : c.id = item_id) (hcu : c.user_id = user_id) :
    placeStep item_id user_id P j
      (makeRoomLater user_id P j (closeGapLater user_id P i j (evictStep item_id user_id c))) =
    { c with parent_id := P, order_index := j } := by
  obtain ⟨cid, cu, cp, cpos⟩ := c
  simp only at hcid hcu
  subst hcid
  subst hcu
  simp only [evictStep, closeGapLater, makeRoomLater, placeStep]
  split_ifs <;> simp_all

theorem scopeDistinct_symm : Symmetric scopeDistinct := by
  intro a b h hu hp heq
  exact h hu.symm hp.symm heq.symm

theorem pairwise_cross
    (items : List SItem) (item : SItem) (item_id user_id new_parent_id : Nat) (new_index : Int)
    (hids : (items.map (fun it => it.id)).Nodup)
    (hpos : items.Pairwise scopeDistinct)
    (hmem : item ∈ items)
    (hid : item.id = item_id) (huser : item.user_id = user_id)
    (hcross : item.parent_id ≠ new_parent_id) :
    ((((items.map (evictStep item_id user_id)).map
        (makeRoomCross user_id new_parent_id new_index)).map
        (placeStep item_id user_id new_parent_id new_index)).map
        (closeGapCross user_id item.parent_id item.order_index)).Pairwise scopeDistinct := by
  rw [List.map_map, List.map_map, List.map_map]
  refine List.pairwise_map.mpr ?_
  have hcomb := (List.pairwise_map.mp hids).and hpos
  refine List.Pairwise.imp_of_mem ?_ hcomb
  intro a b hma hmb hab
  obtain ⟨hidab, hsd⟩ := hab
  have hinj : ∀ c ∈ items, c.id = item_id → c = item := fun c hc hcid =>
    List.inj_on_of_nodup_map hids hc hmem (by simp [hcid, hid])
  dsimp only [Function.comp]
  by_cases hax : a.id = item_id ∧ a.user_id = user_id
  · by_cases hbx : b.id = item_id ∧ b.user_id = user_id
    · exact absurd (hax.1.trans hbx.1.symm) hidab
    · have ha : a = item := hinj a hma hax.1
      rw [crossF_item item_id user_id new_parent_id item.parent_id new_index item.order_index a
          hax.1 hax.2 (by rw [ha]; exact hcross) hcross,
        crossF_other item_id user_id new_parent_id item.parent_id new_index item.order_index b
          hbx hcross]
      intro hu hp heq
      dsimp only at hu hp heq
      have hbu : b.user_id = user_id := by rw [← hu, ha, huser]
      have hbp : b.parent_id = new_parent_id := hp.symm
      rw [if_pos hbu, if_pos hbp] at heq
      split_ifs at heq <;> omega
  · by_cases hbx : b.id = item_id ∧ b.user_id = user_id
    · have hb : b = item := hinj b hmb hbx.1
      rw [crossF_item item_id user_id new_parent_id item.parent_id new_index item.order_index b
          hbx.1 hbx.2 (by rw [hb]; exact hcross) hcross,
        crossF_other item_id user_id new_parent_id item.parent_id new_index item.order_index a
          hax hcross]
      intro hu hp heq
      dsimp only at hu hp heq
      have hau : a.user_id = user_id := by rw [hu, hb, huser]
      have hap : a.parent_id = new_parent_id := hp
      rw [if_pos hau, if_pos hap] at heq
      split_ifs at heq <;> omega
    · have hane : a ≠ item := fun h => hax ⟨by rw [h]; exact hid, by rw [h]; exact huser⟩
      have hbne : b ≠ item := fun h => hbx ⟨by rw [h]; exact hid, by rw [h]; exact huser⟩
      have hgla := (hpos.forall scopeDistinct_symm) hma hmem hane
      have hglb := (hpos.forall scopeDistinct_symm) hmb hmem hbne
      rw [crossF_other item_id user_id new_parent_id item.parent_id new_index item.order_index a
          hax hcross,
        crossF_other item_id user_id new_parent_id item.parent_id new_index item.order_index b
          hbx hcross]
      intro hu hp heq
      dsimp only at hu hp heq
      have hne := hsd hu hp
      by_cases hau : a.user_id = user_id
      · have hbu : b.user_id = user_id := by rw [← hu]; exact hau
        rw [if_pos hau, if_pos hbu] at heq
        by_cases hap : a.parent_id = new_parent_id
        · have hbp : b.parent_id = new_parent_id := by rw [← hp]; exact hap
          rw [if_pos hap, if_pos hbp] at heq
          split_ifs at heq <;> omega
        · have hbp : ¬ b.parent_id = new_parent_id := by rw [← hp]; exact hap
          rw [if_neg hap, if_neg hbp] at heq
          by_cases hap2 : a.parent_id = item.parent_id
          · have hbp2 : b.parent_id = item.parent_id := by rw [← hp]; exact hap2
            have hai : a.order_index ≠ item.order_index :=
              hgla (by rw [hau, huser]) hap2
            have hbi : b.order_index ≠ item.order_index :=
              hglb (by rw [hbu, huser]) hbp2
            rw [if_pos hap2, if_pos hbp2] at heq
            split_ifs at heq <;> omega
          · have hbp2 : ¬ b.parent_id = item.parent_id := by rw [← hp]; exact hap2
            rw [if_neg hap2, if_neg hbp2] at heq
            exact hne heq
      · have hbu : ¬ b.user_id = user_id := by rw [← hu]; exact hau
        rw [if_neg hau, if_neg hbu] at heq
        exact hne heq

theorem pairwise_earlier
    (items : List SItem) (item : SItem) (item_id user_id new_parent_id : Nat) (new_index : Int)
    (hids : (items.map (fun it => it.id)).Nodup)
    (hpos : items.Pairwise scopeDistinct)
    (hmem : item ∈ items)
    (hid : item.id = item_id) (huser : item.user_id = user_id)
    (hsame : item.parent_id = new_parent_id) (hij : new_index < item.order_index) :
    (((items.map (evictStep item_id user_id)).map
        (makeRoomEarlier user_id new_parent_id new_index item.order_index)).map
        (placeStep item_id user_id new_parent_id new_index)).Pairwise scopeDistinct := by
  rw [List.map_map, List.map_map]
  refine List.pairwise_map.mpr ?_
  have hcomb := (List.pairwise_map.mp hids).and hpos
  refine List.Pairwise.imp_of_mem ?_ hcomb
  intro a b hma hmb hab
  obtain ⟨hidab, hsd⟩ := hab
  have hinj : ∀ c ∈ items, c.id = item_id → c = item := fun c hc hcid =>
    List.inj_on_of_nodup_map hids hc hmem (by simp [hcid, hid])
  dsimp only [Function.comp]
  by_cases hax : a.id = item_id ∧ a.user_id = user_id
  · by_cases hbx : b.id = item_id ∧ b.user_id = user_id
    · exact absurd (hax.1.trans hbx.1.symm) hidab
    · have ha : a = item := hinj a hma hax.1
      rw [earlierF_item item_id user_id new_parent_id new_index item.order_index a hax.1 hax.2,
        earlierF_other item_id user_id new_parent_id new_index item.order_index b hbx]
      intro hu hp heq
      dsimp only at hu hp heq
      have hbu : b.user_id = user_id := by rw [← hu, ha, huser]
      have hbp : b.parent_id = new_parent_id := hp.symm
      have hbi : b.order_index ≠ item.order_index :=
        ((hpos.forall scopeDistinct_symm) hmb hmem
          (fun h => hbx ⟨by rw [h]; exact hid, by rw [h]; exact huser⟩))
          (by rw [hbu, huser]) (by rw [hbp, hsame])
      rw [if_pos hbu, if_pos hbp] at heq
      split_ifs at heq <;> omega
  · by_cases hbx : b.id = item_id ∧ b.user_id = user_id
    · have hb : b = item := hinj b hmb hbx.1
      rw [earlierF_item item_id user_id new_parent_id new_index item.order_index b hbx.1 hbx.2,
        earlierF_other item_id user_id new_parent_id new_index item.order_index a hax]
      intro hu hp heq
      dsimp only at hu hp heq
      have hau : a.user_id = user_id := by rw [hu, hb, huser]
      have hap : a.parent_id = new_parent_id := hp
      have hai : a.order_index ≠ item.order_index :=
        ((hpos.forall scopeDistinct_symm) hma hmem
          (fun h => hax ⟨by rw [h]; exact hid, by rw [h]; exact huser⟩))
          (by rw [hau, huser]) (by rw [hap, hsame])
      rw [if_pos hau, if_pos hap] at heq
      split_ifs at heq <;> omega
    · have hane : a ≠ item := fun h => hax ⟨by rw [h]; exact hid, by rw [h]; exact huser⟩
      have hbne : b ≠ item := fun h => hbx ⟨by rw [h]; exact hid, by rw [h]; exact huser⟩
      have hgla := (hpos.forall scopeDistinct_symm) hma hmem hane
      have hglb := (hpos.forall scopeDistinct_symm) hmb hmem hbne
      rw [earlierF_other item_id user_id new_parent_id new_index item.order_index a hax,
        earlierF_other item_id user_id new_parent_id new_index item.order_index b hbx]
      intro hu hp heq
      dsimp only at hu hp heq
      have hne := hsd hu hp
      by_cases hau : a.user_id = user_id
      · have hbu : b.user_id = user_id := by rw [← hu]; exact hau
        rw [if_pos hau, if_pos hbu] at heq
        by_cases hap : a.parent_id = new_parent_id
        · have hbp : b.parent_id = new_parent_id := by rw [← hp]; exact hap
          have hai : a.order_index ≠ item.order_index :=
            hgla (by rw [hau, huser]) (by rw [hap, hsame])
          have hbi : b.order_index ≠ item.order_index :=
            hglb (by rw [hbu, huser]) (by rw [hbp, hsame])
          rw [if_pos hap, if_pos hbp] at heq
          split_ifs at heq <;> omega
        · have hbp : ¬ b.parent_id = new_parent_id := by rw [← hp]; exact hap
          rw [if_neg hap, if_neg hbp] at heq
          exact hne heq
      · have hbu : ¬ b.user_id = user_id := by rw [← hu]; exact hau
        rw [if_neg hau, if_neg hbu] at heq
        exact hne heq

theorem pairwise_later
    (items : List SItem) (item : SItem) (item_id user_id new_parent_id : Nat) (new_index : Int)
    (hids : (items.map (fun it => it.id)).Nodup)
    (hpos : items.Pairwise scopeDistinct)
    (hmem : item ∈ items)
    (hid : item.id = item_id) (huser : item.user_id = user_id)
    (hsame : item.parent_id = new_parent_id) (hij : item.order_index < new_index) :
    ((((items.map (evictStep item_id user_id)).map
        (closeGapLater user_id item.parent_id item.order_index new_index)).map
        (makeRoomLater user_id new_parent_id new_index)).map
        (placeStep item_id user_id new_parent_id new_index)).Pairwise scopeDistinct := by
  rw [hsame, List.map_map, List.map_map, List.map_map]
  refine List.pairwise_map.mpr ?_
  have hcomb := (List.pairwise_map.mp hids).and hpos
  refine List.Pairwise.imp_of_mem ?_ hcomb
  intro a b hma hmb hab
  obtain ⟨hidab, hsd⟩ := hab
  have hinj : ∀ c ∈ items, c.id = item_id → c = item := fun c hc hcid =>
    List.inj_on_of_nodup_map hids hc hmem (by simp [hcid, hid])
  dsimp only [Function.comp]
  by_cases hax : a.id = item_id ∧ a.user_id = user_id
  · by_cases hbx : b.id = item_id ∧ b.user_id = user_id
    · exact absurd (hax.1.trans hbx.1.symm) hidab
    · have ha : a = item := hinj a hma hax.1
      rw [laterF_item item_id user_id new_parent_id item.order_index new_index a hax.1 hax.2,
        laterF_other item_id user_id new_parent_id item.order_index new_index b hbx hij]
      intro hu hp heq
      dsimp only at hu hp heq
      have hbu : b.user_id = user_id := by rw [← hu, ha, huser]
      have hbp : b.parent_id = new_parent_id := hp.symm
      rw [if_pos hbu, if_pos hbp] at heq
      split_ifs at heq <;> omega
  · by_cases hbx : b.id = item_id ∧ b.user_id = user_id
    · have hb : b = item := hinj b hmb hbx.1
      rw [laterF_item item_id user_id new_parent_id item.order_index new_index b hbx.1 hbx.2,
        laterF_other item_id user_id new_parent_id item.order_index new_index a hax hij]
      intro hu hp heq
      dsimp only at hu hp heq
      have hau : a.user_id = user_id := by rw [hu, hb, huser]
      have hap : a.parent_id = new_parent_id := hp
      rw [if_pos hau, if_pos hap] at heq
      split_ifs at heq <;> omega
    · have hane : a ≠ item := fun h => hax ⟨by rw [h]; exact hid, by rw [h]; exact huser⟩
      have hbne : b ≠ item := fun h => hbx ⟨by rw [h]; exact hid, by rw [h]; exact huser⟩
      have hgla := (hpos.forall scopeDistinct_symm) hma hmem hane
      have hglb := (hpos.forall scopeDistinct_symm) hmb hmem hbne
      rw [laterF_other item_id user_id new_parent_id item.order_index new_index a hax hij,
        laterF_other item_id user_id new_parent_id item.order_index new_index b hbx hij]
      intro hu hp heq
      dsimp only at hu hp heq
      have hne := hsd hu hp
      by_cases hau : a.user_id = user_id
      · have hbu : b.user_id = user_id := by rw [← hu]; exact hau
        rw [if_pos hau, if_pos hbu] at heq
        by_cases hap : a.parent_id = new_parent_id
        · have hbp : b.parent_id = new_parent_id := by rw [← hp]; exact hap
          have hai : a.order_index ≠ item.order_index :=
            hgla (by rw [hau, huser]) (by rw [hap, hsame])
          have hbi : b.order_index ≠ item.order_index :=
            hglb (by rw [hbu, huser]) (by rw [hbp, hsame])
          rw [if_pos hap, if_pos hbp] at heq
          split_ifs at heq <;> omega
        · have hbp : ¬ b.parent_id = new_parent_id := by rw [← hp]; exact hap
          rw [if_neg hap, if_neg hbp] at heq
          exact hne heq
      · have hbu : ¬ b.user_id = user_id := by rw [← hu]; exact hau
        rw [if_neg hau, if_neg hbu] at heq
        exact hne heq

/-- C2 (amended): after any successful container move, sibling `order_index`
values remain pairwise distinct within every `(user, parent)` scope, provided
they were distinct (and ids unique) before.  Density is not preserved: a
same-parent move to a later interior position leaves a gap above the target
index, and the leaf endpoint renumbers `sort_order` in steps of ten
(`move_density_fails`). -/
theorem reorder_structure_preserves_position_uniqueness
    (items : List SItem) (parents : List SParent)
    (item_id new_parent_id : Nat) (new_index : Int) (user_id : Nat) (out : List SItem)
    (hids : (items.map (fun it => it.id)).Nodup)
    (hpos : items.Pairwise scopeDistinct)
    (hok : reorder_structure items parents item_id new_parent_id new_index user_id = .ok out) :
    out.Pairwise scopeDistinct := by
  unfold reorder_structure reorder_structure_tx at hok
  cases hfind : items.find? (fun it => it.id == item_id && it.user_id == user_id) with
  | none => rw [hfind] at hok; cases hok
  | some item =>
    rw [hfind] at hok
    dsimp only at hok
    have hmem : item ∈ items := List.mem_of_find?_eq_some hfind
    have hpred := List.find?_some hfind
    have hid : item.id = item_id := by
      simp only [Bool.and_eq_true, beq_iff_eq] at hpred
      exact hpred.1
    have huser : item.user_id = user_id := by
      simp only [Bool.and_eq_true, beq_iff_eq] at hpred
      exact hpred.2
    by_cases hnoop : item.parent_id = new_parent_id ∧ item.order_index = new_index
    · rw [if_pos hnoop] at hok
      rw [← Except.ok.inj hok]
      exact hpos
    · rw [if_neg hnoop] at hok
      cases hpfind : parents.find? (fun p => p.id == new_parent_id && p.user_id == user_id) with
      | none => rw [hpfind] at hok; cases hok
      | some pr =>
        rw [hpfind] at hok
        dsimp only at hok
        rw [← Except.ok.inj hok]
        by_cases hcross : item.parent_id ≠ new_parent_id
        · rw [if_pos hcross, if_pos hcross]
          exact pairwise_cross items item item_id user_id new_parent_id new_index
            hids hpos hmem hid huser hcross
        · have hc2 : ¬ (item.parent_id ≠ new_parent_id) := hcross
          have hsame : item.parent_id = new_parent_id := not_not.mp hcross
          rw [if_neg hc2, if_neg hc2]
          by_cases hlt : new_index < item.order_index
          · rw [if_pos hlt]
            exact pairwise_earlier items item item_id user_id new_parent_id new_index
              hids hpos hmem hid huser hsame hlt
          · by_cases hgt : item.order_index < new_index
            · rw [if_neg hlt, if_pos hgt]
              exact pairwise_later items item item_id user_id new_parent_id new_index
                hids hpos hmem hid huser hsame hgt
            · exfalso
              exact hnoop ⟨hsame, by omega⟩

/-- C2 witness: the move of `move_density_fails` succeeds from a unique,
dense state, and the resulting positions `1, 0, 3` are still pairwise
distinct within the scope. -/
theorem reorder_structure_preserves_position_uniqueness_witness :
    ([{ id := 1, user_id := 1, parent_id := 10, order_index := 1 },
      { id := 2, user_id := 1, parent_id := 10, order_index := 0 },
      { id := 3, user_id := 1, parent_id := 10, order_index := 3 }] : List SItem).Pairwise
      scopeDistinct :=
  reorder_structure_preserves_position_uniqueness demoItems demoParents 1 10 1 1
    [{ id := 1, user_id := 1, parent_id := 10, order_index := 1 },
     { id := 2, user_id := 1, parent_id := 10, order_index := 0 },
     { id := 3, user_id := 1, parent_id := 10, order_index := 3 }]
    (by decide) (by decide) (by decide)

/-! ## The move round trip -/

theorem evictStep_idu (x u : Nat) (c : SItem) :
    (evictStep x u c).id = c.id ∧ (evictStep x u c).user_id = c.user_id := by
  unfold evictStep; split_ifs <;> simp

theorem makeRoomEarlier_idu (u P : Nat) (j i : Int) (c : SItem) :
    (makeRoomEarlier u P j i c).id = c.id ∧ (makeRoomEarlier u P j i c).user_id = c.user_id := by
  unfold makeRoomEarlier; split_ifs <;> simp

theorem closeGapLater_idu (u P : Nat) (i j : Int) (c : SItem) :
    (closeGapLater u P i j c).id = c.id ∧ (closeGapLater u P i j c).user_id = c.user_id := by
  unfold closeGapLater; split_ifs <;> simp

theorem makeRoomLater_idu (u P : Nat) (j : Int) (c : SItem) :
    (makeRoomLater u P j c).id = c.id ∧ (makeRoomLater u P j c).user_id = c.user_id := by
  unfold makeRoomLater; split_ifs <;> simp

theorem placeStep_idu (x u P : Nat) (j : Int) (c : SItem) :
    (placeStep x u P j c).id = c.id ∧ (placeStep x u P j c).user_id = c.user_id := by
  unfold placeStep; split_ifs <;> simp


theorem roundTrip_lt_item (item_id user_id P : Nat) (i j : Int) (c : SItem)
    (hcid : c.id = item_id) (hcu : c.user_id = user_id) :
    placeStep item_id user_id P i
      (makeRoomLater user_id P i
        (closeGapLater user_id P j i
          (evictStep item_id user_id
            (placeStep item_id user_id P j
              (makeRoomEarlier user_id P j i
                (evictStep item_id user_id c)))))) =
    { c with parent_id := P, order_index := i } := by
  rw [earlierF_item item_id user_id P j i c hcid hcu]
  exact laterF_item item_id user_id P j i { c with parent_id := P, order_index := j } hcid hcu

theorem roundTrip_lt_other (item_id user_id P : Nat) (i j : Int) (c : SItem)
    (hcx : ¬(c.id = item_id ∧ c.user_id = user_id)) (hlt : j < i)
    (hci : c.user_id = user_id → c.parent_id = P → c.order_index ≠ i) :
    placeStep item_id user_id P i
      (makeRoomLater user_id P i
        (closeGapLater user_id P j i
          (evictStep item_id user_id
            (placeStep item_id user_id P j
              (makeRoomEarlier user_id P j i
                (evictStep item_id user_id c)))))) =
    (if c.user_id = user_id ∧ c.parent_id = P ∧ i < c.order_index ∧ j < c.order_index then
      { c with order_index := c.order_index + 1 } else c) := by
  rw [earlierF_other item_id user_id P j i c hcx]
  rw [laterF_other item_id user_id P j i
    { c with order_index :=
        if c.user_id = user_id then
          if c.parent_id = P then
            if j ≤ c.order_index then
              if c.order_index < i then c.order_index + 1 else c.order_index
            else c.order_index
          else c.order_index
        else c.order_index }
    hcx hlt]
  obtain ⟨cid, cu, cp, cpos⟩ := c
  dsimp only
  by_cases hcu : cu = user_id
  · by_cases hcp : cp = P
    · have hci' : cpos ≠ i := hci hcu hcp
      split_ifs <;> simp only [SItem.mk.injEq, true_and] <;> omega
    · split_ifs <;> simp only [SItem.mk.injEq, true_and] <;> omega
  · split_ifs <;> simp only [SItem.mk.injEq, true_and] <;> omega

theorem roundTrip_gt_item (item_id user_id P : Nat) (i j : Int) (c : SItem)
    (hcid : c.id = item_id) (hcu : c.user_id = user_id) :
    placeStep item_id user_id P i
      (makeRoomEarlier user_id P i j
        (evictStep item_id user_id
          (placeStep item_id user_id P j
            (makeRoomLater user_id P j
              (closeGapLater user_id P i j
                (evictStep item_id user_id c)))))) =
    { c with parent_id := P, order_index := i } := by
  rw [laterF_item item_id user_id P i j c hcid hcu]
  exact earlierF_item item_id user_id P i j { c with parent_id := P, order_index := j } hcid hcu

theorem roundTrip_gt_other (item_id user_id P : Nat) (i j : Int) (c : SItem)
    (hcx : ¬(c.id = item_id ∧ c.user_id = user_id)) (hgt : i < j)
    (hci : c.user_id = user_id → c.parent_id = P → c.order_index ≠ i) :
    placeStep item_id user_id P i
      (makeRoomEarlier user_id P i j
        (evictStep item_id user_id
          (placeStep item_id user_id P j
            (makeRoomLater user_id P j
              (closeGapLater user_id P i j
                (evictStep item_id user_id c)))))) =
    (if c.user_id = user_id ∧ c.parent_id = P ∧ i < c.order_index ∧ j < c.order_index then
      { c with order_index := c.order_index + 1 } else c) := by
  rw [laterF_other item_id user_id P i j c hcx hgt]
  rw [earlierF_other item_id user_id P i j
    { c with order_index :=
        if c.user_id = user_id then
          if c.parent_id = P then
            if i < c.order_index then
              if c.order_index ≤ j then c.order_index - 1 else c.order_index + 1
            else c.order_index
          else c.order_index
        else c.order_index }
    hcx]
  obtain ⟨cid, cu, cp, cpos⟩ := c
  dsimp only
  by_cases hcu : cu = user_id
  · by_cases hcp : cp = P
    · have hci' : cpos ≠ i := hci hcu hcp
      split_ifs <;> simp only [SItem.mk.injEq, true_and] <;> omega
    · split_ifs <;> simp only [SItem.mk.injEq, true_and] <;> omega
  · split_ifs <;> simp only [SItem.mk.injEq, true_and] <;> omega

/-- C3 (amended): moving X from `(P, i)` to `(P, j)` and immediately back to
`(P, i)` restores X and every sibling whose position is at most `max i j`;
every sibling whose position is strictly above both `i` and `j` ends exactly
one position higher than it started (the extra `order_index > new_index`
increment of the later-position leg).  Full restoration therefore holds
exactly when no sibling sits above `max i j`; `move_round_trip_fails` shows
a displaced sibling. -/
theorem move_round_trip_characterization
    (items : List SItem) (parents : List SParent) (item : SItem)
    (item_id user_id P : Nat) (i j : Int)
    (hids : (items.map (fun it => it.id)).Nodup)
    (hpos : items.Pairwise scopeDistinct)
    (hfind : items.find? (fun it => it.id == item_id && it.user_id == user_id) = some item)
    (hP : item.parent_id = P) (hi : item.order_index = i)
    (hpr : parents.find? (fun p => p.id == P && p.user_id == user_id) =
      some { id := P, user_id := user_id })
    (hij : i ≠ j) :
    (reorder_structure items parents item_id P j user_id).bind
      (fun s => reorder_structure s parents item_id P i user_id) =
    Except.ok (items.map fun it =>
      if it.user_id = user_id ∧ it.parent_id = P ∧ i < it.order_index ∧ j < it.order_index then
        { it with order_index := it.order_index + 1 }
      else it) := by
  have hmem : item ∈ items := List.mem_of_find?_eq_some hfind
  have hpred := List.find?_some hfind
  have hid : item.id = item_id := by
    simp only [Bool.and_eq_true, beq_iff_eq] at hpred
    exact hpred.1
  have huser : item.user_id = user_id := by
    simp only [Bool.and_eq_true, beq_iff_eq] at hpred
    exact hpred.2
  have hinj : ∀ c ∈ items, c.id = item_id → c = item := fun c hc hcid =>
    List.inj_on_of_nodup_map hids hc hmem (by simp [hcid, hid])
  have hcrossneg : ¬(item.parent_id ≠ P) := fun h => h hP
  have hPP : ¬(P ≠ P) := fun h => h rfl
  have hci : ∀ c ∈ items, ¬(c.id = item_id ∧ c.user_id = user_id) →
      c.user_id = user_id → c.parent_id = P → c.order_index ≠ i := by
    intro c hc hcx hu1 hp1
    have hcne : c ≠ item := fun h => hcx ⟨by rw [h]; exact hid, by rw [h]; exact huser⟩
    have hdist := (hpos.forall scopeDistinct_symm) hc hmem hcne
      (by rw [hu1, huser]) (by rw [hp1, hP])
    rw [← hi]
    exact hdist
  rcases hij.lt_or_lt with hgt | hlt
  · -- i < j : first leg moves later, second leg moves back earlier
    have hnoop1 : ¬(item.parent_id = P ∧ item.order_index = j) := by
      intro h
      rw [hi] at h
      omega
    have hjgt : item.order_index < j := by omega
    have hnlt : ¬ j < item.order_index := by omega
    have hleg1 : reorder_structure items parents item_id P j user_id =
        .ok ((((items.map (evictStep item_id user_id)).map
          (closeGapLater user_id P i j)).map
          (makeRoomLater user_id P j)).map
          (placeStep item_id user_id P j)) := by
      unfold reorder_structure reorder_structure_tx
      rw [hfind]
      dsimp only
      rw [if_neg hnoop1, hpr]
      dsimp only
      rw [if_neg hcrossneg, if_neg hcrossneg, if_neg hnlt, if_pos hjgt,
        if_pos (show ([] : List Bool).headD true = true from rfl), hP, hi]
    rw [hleg1]
    dsimp only [Except.bind]
    unfold reorder_structure reorder_structure_tx
    simp only [List.map_map]
    rw [List.find?_map]
    have hpeq : ((fun it => it.id == item_id && it.user_id == user_id) ∘
        (placeStep item_id user_id P j ∘ (makeRoomLater user_id P j ∘
          (closeGapLater user_id P i j ∘ evictStep item_id user_id)))) =
        (fun it => it.id == item_id && it.user_id == user_id) := by
      funext x
      dsimp only [Function.comp]
      rw [(placeStep_idu _ _ _ _ _).1, (placeStep_idu _ _ _ _ _).2,
        (makeRoomLater_idu _ _ _ _).1, (makeRoomLater_idu _ _ _ _).2,
        (closeGapLater_idu _ _ _ _ _).1, (closeGapLater_idu _ _ _ _ _).2,
        (evictStep_idu _ _ _).1, (evictStep_idu _ _ _).2]
    rw [hpeq, hfind]
    dsimp only [Option.map, Function.comp]
    rw [laterF_item item_id user_id P i j item hid huser]
    dsimp only
    rw [if_neg (show ¬(P = P ∧ j = i) from fun h => hij h.2.symm), hpr]
    dsimp only
    rw [if_neg hPP, if_neg hPP, if_pos hgt,
      if_pos (show ([] : List Bool).headD true = true from rfl)]
    refine congrArg Except.ok ?_
    simp only [List.map_map]
    refine List.map_congr_left ?_
    intro c hc
    dsimp only [Function.comp]
    by_cases hcx : c.id = item_id ∧ c.user_id = user_id
    · have hceq : c = item := hinj c hc hcx.1
      rw [roundTrip_gt_item item_id user_id P i j c hcx.1 hcx.2, hceq,
        if_neg (show ¬(item.user_id = user_id ∧ item.parent_id = P ∧
          i < item.order_index ∧ j < item.order_index) from by
            intro h
            rw [hi] at h
            omega)]
      rw [← hP, ← hi]
    · exact roundTrip_gt_other item_id user_id P i j c hcx hgt (hci c hc hcx)
  · -- j < i : first leg moves earlier, second leg moves back later
    have hnoop1 : ¬(item.parent_id = P ∧ item.order_index = j) := by
      intro h
      rw [hi] at h
      omega
    have hjlt : j < item.order_index := by omega
    have hleg1 : reorder_structure items parents item_id P j user_id =
        .ok (((items.map (evictStep item_id user_id)).map
          (makeRoomEarlier user_id P j i)).map
          (placeStep item_id user_id P j)) := by
      unfold reorder_structure reorder_structure_tx
      rw [hfind]
      dsimp only
      rw [if_neg hnoop1, hpr]
      dsimp only
      rw [if_neg hcrossneg, if_neg hcrossneg, if_pos hjlt,
        if_pos (show ([] : List Bool).headD true = true from rfl), hi]
    rw [hleg1]
    dsimp only [Except.bind]
    unfold reorder_structure reorder_structure_tx
    simp only [List.map_map]
    rw [List.find?_map]
    have hpeq : ((fun it => it.id == item_id && it.user_id == user_id) ∘
        (placeStep item_id user_id P j ∘ (makeRoomEarlier user_id P j i ∘
          evictStep item_id user_id))) =
        (fun it => it.id == item_id && it.user_id == user_id) := by
      funext x
      dsimp only [Function.comp]
      rw [(placeStep_idu _ _ _ _ _).1, (placeStep_idu _ _ _ _ _).2,
        (makeRoomEarlier_idu _ _ _ _ _).1, (makeRoomEarlier_idu _ _ _ _ _).2,
        (evictStep_idu _ _ _).1, (evictStep_idu _ _ _).2]
    rw [hpeq, hfind]
    dsimp only [Option.map, Function.comp]
    rw [earlierF_item item_id user_id P j i item hid huser]
    dsimp only
    rw [if_neg (show ¬(P = P ∧ j = i) from fun h => hij h.2.symm), hpr]
    dsimp only
    rw [if_neg hPP, if_neg hPP, if_neg (show ¬ i < j from by omega), if_pos hlt,
      if_pos (show ([] : List Bool).headD true = true from rfl)]
    refine congrArg Except.ok ?_
    simp only [List.map_map]
    refine List.map_congr_left ?_
    intro c hc
    dsimp only [Function.comp]
    by_cases hcx : c.id = item_id ∧ c.user_id = user_id
    · have hceq : c = item := hinj c hc hcx.1
      rw [roundTrip_lt_item item_id user_id P i j c hcx.1 hcx.2, hceq,
        if_neg (show ¬(item.user_id = user_id ∧ item.parent_id = P ∧
          i < item.order_index ∧ j < item.order_index) from by
            intro h
            rw [hi] at h
            omega)]
      rw [← hP, ← hi]
    · exact roundTrip_lt_other item_id user_id P i j c hcx hlt (hci c hc hcx)

/-- C3 witness: moving container C (position 2, the maximum) to position 0
and back restores every sibling exactly — the characterization's shift
clause is vacuous because no sibling sits above position 2. -/
theorem move_round_trip_characterization_witness :
    (reorder_structure demoItems demoParents 3 10 0 1).bind
      (fun s => reorder_structure s demoParents 3 10 2 1) =
    Except.ok (demoItems.map fun it =>
      if it.user_id = 1 ∧ it.parent_id = 10 ∧ 2 < it.order_index ∧ 0 < it.order_index then
        { it with order_index := it.order_index + 1 }
      else it) :=
  move_round_trip_characterization demoItems demoParents
    { id := 3, user_id := 1, parent_id := 10, order_index := 2 } 3 1 10 2 0
    (by decide) (by decide) (by decide) (by decide) (by decide) (by decide) (by decide)
